import Mathlib

/-!
Verification development for the go-hass-agent core: the D-Bus
request/response and signal-subscription abstraction
(`pkg/linux/dbusx/dbus.go`), the sensor fan-in pipeline
(`internal/agent/agent.go`, `mergeSensorCh`), the sensor tracker
registry, and the disk-usage sensor identity
(`internal/linux/disk/diskUsage.go`).

Pure functions of the Go source are embedded as Lean functions;
the concurrent constructs (the fan-in merger, the signal-watch
dispatch loop, the bus lifecycle watcher) are embedded as explicit
small-step transition systems whose steps mirror the statements of
the corresponding goroutines, with `Relation.ReflTransGen` as the
reachability relation.
-/

namespace HassAgent

/-! ## Sensor tracker registry (spec §4.4)

The `SensorTracker` implementation is not among the provided source
files (only its callers, e.g. `agent.sensors.UpdateSensors`, appear),
so the registry is modelled from the spec. -/

/-- Modelled from the spec: the Sensor Tracker's registry of last-known
sensor values, keyed by sensor `id`.  The `tracker.SensorTracker`
implementation itself is not under `src/`; per spec §4.4, `Update`
"looks up by `update.ID()`; if absent, inserts as new ...; if present,
replaces the stored value/attributes". -/
def trackerUpdate {V : Type} (reg : List (String × V)) (id : String) (v : V) :
    List (String × V) :=
  if reg.any (fun p => p.1 = id) then
    reg.map (fun p => if p.1 = id then (id, v) else p)
  else
    reg ++ [(id, v)]

/-- Modelled from the spec: `Get(id)` returns the stored sensor for `id`
when found (spec §4.4). -/
def trackerGet {V : Type} (reg : List (String × V)) (id : String) : Option V :=
  (reg.find? (fun p => p.1 = id)).map Prod.snd

/-- Modelled from the spec: the registry's keys (spec §4.4 `List()`). -/
def trackerKeys {V : Type} (reg : List (String × V)) : List String :=
  reg.map Prod.fst

/-! ## Disk-usage sensor identity

`diskSensor.ID` from `internal/linux/disk/diskUsage.go` and
`diskUsageState.ID` from the older `device` package file; both compute
the id from the mountpoint path alone.  Go's
`strings.ReplaceAll(path, "/", "_")` with the single-character pattern
`"/"` substitutes every `'/'` character, embedded here as a
character-wise map. -/

/-- Go `strings.ReplaceAll(s, "/", "_")`: every slash becomes an
underscore (single-character pattern, so occurrence replacement is
character substitution). -/
def replaceSlashes (s : String) : String :=
  String.mk (s.data.map (fun c => if c = '/' then '_' else c))

/-- Embedding of `diskSensor.ID` (`internal/linux/disk/diskUsage.go`):
`"mountpoint_root"` for `"/"`, else `"mountpoint" + ReplaceAll(path, "/", "_")`. -/
def diskSensorID (path : String) : String :=
  if path = "/" then "mountpoint_root"
  else "mountpoint" ++ replaceSlashes path

/-- Embedding of `diskUsageState.ID` (the `device` package variant of
the disk usage sensor): textually the same computation. -/
def diskUsageStateID (path : String) : String :=
  if path = "/" then "mountpoint_root"
  else "mountpoint" ++ replaceSlashes path

/-! ## Dynamic D-Bus values and typed extraction (`dbusx/dbus.go`)

`dbusData.data` holds a Go `any`; each `As...` accessor performs a
checked type assertion.  `DynValue` is the tagged union of the dynamic
shapes the accessors test for; `Option DynValue` models the `any` field
(`none` = nil interface); the outer `Option` on accessor arguments
models a nil `*dbusData` receiver (which `GetData` returns when the bus
handle is absent). -/

/-- Dynamic (variant) value carried in `dbusData.data` / `dbus.Variant`. -/
inductive DynValue where
  | str (s : String)
  | int (n : Int)
  | bool (b : Bool)
  | strMap (m : List (String × String))
  | anyMap (m : List (String × DynValue))
  | strList (l : List String)
  | pathList (l : List String)
  | path (p : String)
  | sessList (l : List (List DynValue))

/-- Go type assertion `data.(map[string]string)`. -/
def dynAsStrMap : Option DynValue → Option (List (String × String))
  | some (.strMap m) => some m
  | _ => none

/-- Go type assertion `data.(map[string]any)`. -/
def dynAsAnyMap : Option DynValue → Option (List (String × DynValue))
  | some (.anyMap m) => some m
  | _ => none

/-- Go type assertion `data.([]dbus.ObjectPath)`. -/
def dynAsPathList : Option DynValue → Option (List String)
  | some (.pathList l) => some l
  | _ => none

/-- Go type assertion `data.([]string)`. -/
def dynAsStrList : Option DynValue → Option (List String)
  | some (.strList l) => some l
  | _ => none

/-- Go type assertion `data.(dbus.ObjectPath)`. -/
def dynAsPath : Option DynValue → Option String
  | some (.path p) => some p
  | _ => none

/-- Go type assertion `sessions.([][]any)` used by `GetSessionPath`. -/
def dynAsSessionList : Option DynValue → Option (List (List DynValue))
  | some (.sessList l) => some l
  | _ => none

/-- Embedding of `dbusData.AsVariantMap`: nil receiver yields the nil
map; a failed assertion yields the freshly made empty map; on success
every value is re-wrapped with `MakeVariant` (identity here, values
already being dynamic). -/
def asVariantMap : Option (Option DynValue) → Option (List (String × DynValue))
  | none => none
  | some d =>
    match dynAsAnyMap d with
    | some m => some (m.map (fun kv => (kv.1, kv.2)))
    | none => some []

/-- Embedding of `dbusData.AsStringMap`: nil receiver yields the nil
map; a failed assertion yields `make(map[string]string)` (empty). -/
def asStringMap : Option (Option DynValue) → Option (List (String × String))
  | none => none
  | some d =>
    match dynAsStrMap d with
    | some m => some m
    | none => some []

/-- Embedding of `dbusData.AsObjectPathList`: nil receiver or failed
assertion leaves the zero (nil) slice. -/
def asObjectPathList : Option (Option DynValue) → Option (List String)
  | none => none
  | some d => dynAsPathList d

/-- Embedding of `dbusData.AsStringList`: nil receiver or failed
assertion leaves the zero (nil) slice. -/
def asStringList : Option (Option DynValue) → Option (List String)
  | none => none
  | some d => dynAsStrList d

/-- Embedding of `dbusData.AsObjectPath`: nil receiver or failed
assertion yields the zero path `""`. -/
def asObjectPath : Option (Option DynValue) → String
  | none => ""
  | some d =>
    match dynAsPath d with
    | some p => p
    | none => ""

/-- Embedding of `dbusData.AsRawInterface`: nil receiver yields nil,
otherwise the raw `data` field. -/
def asRawInterface : Option (Option DynValue) → Option DynValue
  | none => none
  | some d => d

/-- Embedding of the generic `VariantToValue[S]`: `variant.Store(&value)`
is abstracted as a decoder for the target shape; on decode failure the
zero value of `S` is returned. -/
def variantToValue {β : Type} (dec : DynValue → Option β) (zero : β) (v : DynValue) : β :=
  match dec v with
  | some x => x
  | none => zero

/-! ## Bus request operations (`busRequest` methods, `dbusx/dbus.go`)

A `busRequest` either has no bus handle (`r.bus == nil`,
modelled as `none`) or a live connection.  The remote side of the
connection is abstracted as a reply oracle `reply : Nat → Except String
DynValue` consulted once per remote call, with `calls` counting the
calls issued so far; returning the advanced connection makes "exactly
one remote call, never retried" visible in the result. -/

/-- A live D-Bus connection: the remote behaviour as a reply oracle plus
the number of remote calls issued so far. -/
structure DConn where
  reply : Nat → Except String DynValue
  calls : Nat

/-- One remote invocation on a connection: consult the oracle once and
advance the call counter. -/
def remoteInvoke (c : DConn) : Except String DynValue × DConn :=
  (c.reply c.calls, { c with calls := c.calls + 1 })

/-- Embedding of `busRequest.GetProp`: nil handle fails with the
`"no bus connection"` error before any remote operation; otherwise one
`obj.GetProperty` call whose error is returned as-is. -/
def getProp : Option DConn → Except String DynValue × Option DConn
  | none => (.error "no bus connection", none)
  | some c =>
    match remoteInvoke c with
    | (.error e, c') => (.error e, some c')
    | (.ok v, c') => (.ok v, some c')

/-- Embedding of `busRequest.SetProp`: nil handle fails with the
`"no bus connection"` error; otherwise one `obj.SetProperty` call whose
error is returned as-is. -/
def setProp : Option DConn → Except String Unit × Option DConn
  | none => (.error "no bus connection", none)
  | some c =>
    match remoteInvoke c with
    | (.error e, c') => (.error e, some c')
    | (.ok _, c') => (.ok (), some c')

/-- Embedding of `busRequest.Call`: nil handle fails with the
`"no bus connection"` error; otherwise one `obj.Call` whose `.Err` is
returned as-is. -/
def callMethod : Option DConn → Except String Unit × Option DConn
  | none => (.error "no bus connection", none)
  | some c =>
    match remoteInvoke c with
    | (.error e, c') => (.error e, some c')
    | (.ok _, c') => (.ok (), some c')

/-- Embedding of `busRequest.GetData`: nil handle logs and returns the
nil `*dbusData`; otherwise one `obj.Call(...).Store(&d.data)`: on remote
error the error is only logged and `d` is returned with its `data`
field still nil. -/
def getData : Option DConn → Option (Option DynValue) × Option DConn
  | none => (none, none)
  | some c =>
    match remoteInvoke c with
    | (.error _, c') => (some none, some c')
    | (.ok v, c') => (some (some v), some c')

/-- Embedding of `busRequest.AddWatch` up to its first return: nil
handle fails with the `"no bus connection"` error; otherwise one
`conn.AddMatchSignalContext` call whose error is returned as-is (the
spawned dispatch loop is modelled separately as `DStep`). -/
def addWatch : Option DConn → Except String Unit × Option DConn
  | none => (.error "no bus connection", none)
  | some c =>
    match remoteInvoke c with
    | (.error e, c') => (.error e, some c')
    | (.ok _, c') => (.ok (), some c')

/-- Embedding of `busRequest.RemoveWatch`: nil handle fails with the
`"no bus connection"` error; otherwise one
`conn.RemoveMatchSignalContext` call whose error is returned as-is. -/
def removeWatch : Option DConn → Except String Unit × Option DConn
  | none => (.error "no bus connection", none)
  | some c =>
    match remoteInvoke c with
    | (.error e, c') => (.error e, some c')
    | (.ok _, c') => (.ok (), some c')

/-! ## `GetSessionPath` (`dbusx/dbus.go`)

The reply of `ListSessions` arrives as `[][]any`; the loop indexes
`s[2]` and `s[4]` of each entry.  Go slice indexing out of range
panics, embedded as the `Except.error` branch. -/

/-- Session-matching loop of `GetSessionPath`: for each entry `s`,
evaluate `s[2]` (panicking when out of range), compare against the
current username when it is a string, then evaluate `s[4]` (panicking
when out of range) and return it when it is an object path. -/
def findUserSession (username : String) : List (List DynValue) → Except String String
  | [] => .ok ""
  | s :: rest =>
    match s[2]? with
    | none => .error "runtime error: index out of range"
    | some (DynValue.str thisUser) =>
      if thisUser = username then
        match s[4]? with
        | none => .error "runtime error: index out of range"
        | some (DynValue.path p) => .ok p
        | some _ => findUserSession username rest
      else findUserSession username rest
    | some _ => findUserSession username rest

/-- Embedding of `GetSessionPath`: the raw `ListSessions` reply is type
asserted to `[][]any` (mismatch yields `""`), then scanned by
`findUserSession`. -/
def getSessionPath (username : String) (raw : Option DynValue) : Except String String :=
  match dynAsSessionList raw with
  | none => .ok ""
  | some l => findUserSession username l

/-! ## Fan-in merger (`mergeSensorCh`, `internal/agent/agent.go`)

Each source channel gets one forwarding goroutine:
```
output := func(c <-chan tracker.Sensor) {
    defer wg.Done()
    for n := range c {
        select {
        case out <- n:
        case <-ctx.Done():
            return
        }
    }
}
```
and `out` is closed by a final goroutine after `wg.Wait()`.  A
forwarding task over a source list is a program counter: `run k` is the
top of the `range` loop having forwarded `k` values, `send k` holds the
received value `src[k]` inside the `select`, and `done d c` is an exited
task that delivered `d` of the `c` values it consumed (`c = d + 1` when
the in-flight value was abandoned on cancellation).  Note the `range`
receive itself has no `ctx.Done()` branch, so a `run` task does not exit
on cancellation; only a task inside the `select` does. -/

/-- Program counter of one forwarding task of `mergeSensorCh`. -/
inductive Phase where
  | run (k : Nat)
  | send (k : Nat)
  | done (d c : Nat)

/-- Whether a forwarding task has returned (counted by `wg.Done`). -/
def Phase.isDone : Phase → Bool
  | .done _ _ => true
  | _ => false

/-- Number of values the task has successfully sent to the sink. -/
def phaseDelivered : Phase → Nat
  | .run k => k
  | .send k => k
  | .done d _ => d

/-- Number of values the task has consumed from its source, i.e. whose
producer-side send on the source channel has completed. -/
def phaseConsumed : Phase → Nat
  | .run k => k
  | .send k => k + 1
  | .done _ c => c

/-- Global state of one `mergeSensorCh` call: the forwarding tasks
(each paired with its full source value sequence), the values the sink
consumer has received in order, the context flag, the sink-closed flag,
and the snapshot of source-sent values taken at cancellation time. -/
structure MState (α : Type) where
  tasks : List (List α × Phase)
  delivered : List α
  cancelled : Bool
  closed : Bool
  atCancel : Multiset α

/-- Multiset of all values sent on (consumed from) the sources so far. -/
def sentM {α : Type} (s : MState α) : Multiset α :=
  (s.tasks.map (fun t => ((t.1.take (phaseConsumed t.2) : List α) : Multiset α))).sum

/-- Multiset of all values the forwarding tasks have delivered to the sink. -/
def dsum {α : Type} (tasks : List (List α × Phase)) : Multiset α :=
  (tasks.map (fun t => ((t.1.take (phaseDelivered t.2) : List α) : Multiset α))).sum

/-- Small-step semantics of `mergeSensorCh`: a task receives the next
source value (`recv`), sees its source closed (`srcClose`), completes
its pending sink send (`send` — still possible after cancellation, as
Go's `select` picks any ready case), abandons the pending send on a
cancelled context (`cancelExit`), the context is cancelled (`cancel`),
or the closer goroutine closes the sink once every task is done
(`closeSink`). -/
inductive MStep {α : Type} : MState α → MState α → Prop where
  | recv (s : MState α) (i : Nat) (src : List α) (k : Nat)
      (h : s.tasks[i]? = some (src, .run k)) (hk : k < src.length) :
      MStep s { s with tasks := s.tasks.set i (src, .send k) }
  | srcClose (s : MState α) (i : Nat) (src : List α)
      (h : s.tasks[i]? = some (src, .run src.length)) :
      MStep s { s with tasks := s.tasks.set i (src, .done src.length src.length) }
  | send (s : MState α) (i : Nat) (src : List α) (k : Nat) (v : α)
      (h : s.tasks[i]? = some (src, .send k)) (hv : src[k]? = some v) :
      MStep s { s with tasks := s.tasks.set i (src, .run (k + 1)),
                       delivered := s.delivered ++ [v] }
  | cancelExit (s : MState α) (i : Nat) (src : List α) (k : Nat)
      (hc : s.cancelled = true) (h : s.tasks[i]? = some (src, .send k)) :
      MStep s { s with tasks := s.tasks.set i (src, .done k (k + 1)) }
  | cancel (s : MState α) (hc : s.cancelled = false) :
      MStep s { s with cancelled := true, atCancel := sentM s }
  | closeSink (s : MState α) (hall : ∀ t ∈ s.tasks, t.2.isDone = true)
      (hc : s.closed = false) :
      MStep s { s with closed := true }

/-- Initial state of `mergeSensorCh ctx srcs...`: one `run 0` task per
source, nothing delivered, context live, sink open. -/
def minit {α : Type} (srcs : List (List α)) : MState α :=
  ⟨srcs.map (fun l => (l, .run 0)), [], false, false, 0⟩

/-- Reachability in the merger semantics. -/
def Reaches {α : Type} : MState α → MState α → Prop :=
  Relation.ReflTransGen MStep

/-- Wellformedness of a task phase over a source of length `n`. -/
def WFPhase (n : Nat) : Phase → Prop
  | .run k => k ≤ n
  | .send k => k < n
  | .done d c => (c = d ∨ c = d + 1) ∧ c ≤ n

/-- Phases possible while the context has never been cancelled: a task
can only have exited by exhausting and fully delivering its source. -/
def CleanPhase (n : Nat) : Phase → Prop
  | .run _ => True
  | .send _ => True
  | .done d c => d = n ∧ c = n

/-- Inductive invariant of the merger semantics. -/
structure MInv {α : Type} (s : MState α) : Prop where
  wf : ∀ t ∈ s.tasks, WFPhase t.1.length t.2
  deliv : (s.delivered : Multiset α) = dsum s.tasks
  order : ∀ t ∈ s.tasks, (t.1.take (phaseDelivered t.2)).Sublist s.delivered
  closedDone : s.closed = true → ∀ t ∈ s.tasks, t.2.isDone = true
  clean : s.cancelled = false → ∀ t ∈ s.tasks, CleanPhase t.1.length t.2

/-- Remaining step budget of a task that gets no help from the sink
consumer: a `run` task needs at most a receive and an exit, a `send`
task just the exit. -/
def phaseWeight : Phase → Nat
  | .run _ => 2
  | .send _ => 1
  | .done _ _ => 0

/-- Total remaining step budget of all forwarding tasks. -/
def weightSum {α : Type} (tasks : List (List α × Phase)) : Nat :=
  (tasks.map (fun t => phaseWeight t.2)).sum

/-! ## Signal-watch dispatch loop (`AddWatch`, `dbusx/dbus.go`)

After a successful `AddWatch`, the dispatch goroutine runs
```
for {
    select {
    case <-ctx.Done():
        r.bus.conn.RemoveSignal(signalCh)
        close(signalCh)
        return
    case signal := <-signalCh:
        r.eventHandler(signal)
    }
}
```
The handler is invoked synchronously, so the loop has three program
points: at the `select` (`loop`), inside `r.eventHandler` (`handling`),
and returned (`exited`).  Signals are `Nat`-labelled.  The state also
records whether the match rules registered by `AddMatchSignalContext`
are still registered on the bus (nothing in the loop deregisters them),
whether the delivery channel has been removed from the connection's
dispatch list and closed, and how many times it has been closed. -/

/-- Program counter of the dispatch goroutine of one signal watch. -/
inductive DPhase where
  | loop
  | handling (sig : Nat)
  | exited

/-- State of one signal subscription after a successful `AddWatch`. -/
structure DState where
  pc : DPhase
  pending : List Nat
  handled : List Nat
  ctxDone : Bool
  matchRegistered : Bool
  removedFromConn : Bool
  chanClosed : Bool
  closeCount : Nat

/-- Small-step semantics of the dispatch loop and its environment: the
connection queues a signal (`enqueue`, only while the channel is live),
the `select` takes a signal and enters the handler (`takeSignal`), the
handler returns (`handlerReturn`), the context is cancelled
(`ctxCancel`), or the `select` takes the done branch — `RemoveSignal`,
`close(signalCh)`, `return` (`cancelBranch`).  `takeSignal` stays
enabled when `ctxDone` holds because Go's `select` picks any ready
case; no step deregisters the bus match rules. -/
inductive DStep : DState → DState → Prop where
  | enqueue (s : DState) (sig : Nat)
      (h1 : s.removedFromConn = false) (h2 : s.chanClosed = false) :
      DStep s { s with pending := s.pending ++ [sig] }
  | takeSignal (s : DState) (sig : Nat) (rest : List Nat)
      (hpc : s.pc = .loop) (hp : s.pending = sig :: rest) :
      DStep s { s with pc := .handling sig, pending := rest }
  | handlerReturn (s : DState) (sig : Nat) (hpc : s.pc = .handling sig) :
      DStep s { s with pc := .loop, handled := s.handled ++ [sig] }
  | ctxCancel (s : DState) (h : s.ctxDone = false) :
      DStep s { s with ctxDone := true }
  | cancelBranch (s : DState) (hpc : s.pc = .loop) (hd : s.ctxDone = true) :
      DStep s { s with pc := .exited, removedFromConn := true,
                       chanClosed := true, closeCount := s.closeCount + 1 }

/-- State right after `AddWatch` returned `nil`: match registered,
channel live, dispatch loop at its `select`. -/
def dinit (pending₀ : List Nat) : DState :=
  ⟨.loop, pending₀, [], false, true, false, false, 0⟩

/-- Reachability in the dispatch-loop semantics. -/
def DReaches : DState → DState → Prop :=
  Relation.ReflTransGen DStep

/-- Signals delivered to the subscription so far: the handled ones plus
the one currently inside the handler. -/
def deliveredSignals (s : DState) : List Nat :=
  s.handled ++ (match s.pc with
    | .handling sig => [sig]
    | _ => [])

/-! ## Bus lifecycle watcher (`NewBus`, `dbusx/dbus.go`)

`NewBus` spawns
```
go func() {
    defer conn.Close()
    defer cancelFunc()
    <-ctx.Done()
    b.wg.Wait()
}()
```
and every successful `AddWatch` does `r.bus.wg.Add(1)` and arranges a
`wg.Done` when its dispatch goroutine exits.  The watcher therefore has
four program points: blocked on `<-ctx.Done()` (`w0`), blocked on
`wg.Wait()` (`w1`), past the barrier but not yet closed (`w2`), and
closed (`w3`).  `active` is the wait-group counter: the number of
registered dispatch goroutines that have not yet exited.  `addWatchB`
requires only that the connection is not yet closed (a closed
connection makes `AddMatchSignalContext` fail before the `wg.Add`), so
it remains possible between the barrier and the close. -/

/-- Program counter of the `NewBus` lifecycle watcher goroutine. -/
inductive WPhase where
  | w0
  | w1
  | w2
  | w3

/-- State of one `Bus` handle: watcher position, context flag,
wait-group counter, and whether `conn.Close()` has run. -/
structure BState where
  w : WPhase
  cancelled : Bool
  active : Nat
  connClosed : Bool

/-- Small-step semantics of the bus lifecycle: context cancellation,
the watcher passing `<-ctx.Done()`, `wg.Wait()` returning on a zero
counter, the deferred `conn.Close()`, a successful `AddWatch`
registering a dispatch goroutine (`wg.Add(1)`), and a dispatch
goroutine exiting (`wg.Done()`). -/
inductive BStep : BState → BState → Prop where
  | cancelB (s : BState) (h : s.cancelled = false) :
      BStep s { s with cancelled := true }
  | passDone (s : BState) (hw : s.w = .w0) (hc : s.cancelled = true) :
      BStep s { s with w := .w1 }
  | waitReturn (s : BState) (hw : s.w = .w1) (ha : s.active = 0) :
      BStep s { s with w := .w2 }
  | doClose (s : BState) (hw : s.w = .w2) :
      BStep s { s with w := .w3, connClosed := true }
  | addWatchB (s : BState) (h : s.connClosed = false) :
      BStep s { s with active := s.active + 1 }
  | watchExit (s : BState) (k : Nat) (h : s.active = k + 1) :
      BStep s { s with active := k }

/-- State right after `NewBus` returned a live handle. -/
def binit : BState :=
  ⟨.w0, false, 0, false⟩

/-- Reachability in the bus-lifecycle semantics. -/
def BReaches : BState → BState → Prop :=
  Relation.ReflTransGen BStep

/-! ## Claim theorems: tracker, disk identity, typed extraction -/

theorem trackerMapReplace_mem {V : Type} (reg : List (String × V)) (id : String) (v : V)
    (h : reg.any (fun p => p.1 = id) = true) :
    (reg.map (fun p => if p.1 = id then (id, v) else p)).any (fun p => p.1 = id) = true := by
  induction reg with
  | nil => simp at h
  | cons p rest ih =>
    by_cases hp : p.1 = id
    · simp [hp]
    · simp only [List.any_cons, Bool.or_eq_true, decide_eq_true_eq] at h
      simp only [List.map_cons, if_neg hp, List.any_cons, Bool.or_eq_true]
      exact Or.inr (ih (h.resolve_left hp))

theorem trackerUpdate_mem {V : Type} (reg : List (String × V)) (id : String) (v : V) :
    (trackerUpdate reg id v).any (fun p => p.1 = id) = true := by
  unfold trackerUpdate
  by_cases h : reg.any (fun p => p.1 = id) = true
  · simpa [h] using trackerMapReplace_mem reg id v h
  · simp [h]

theorem trackerGet_map_replace {V : Type} (reg : List (String × V)) (id : String) (v : V)
    (h : reg.any (fun p => p.1 = id) = true) :
    trackerGet (reg.map (fun p => if p.1 = id then (id, v) else p)) id = some v := by
  induction reg with
  | nil => simp at h
  | cons p rest ih =>
    simp only [List.any_cons, Bool.or_eq_true, decide_eq_true_eq] at h
    by_cases hp : p.1 = id
    · simp [trackerGet, List.find?, hp]
    · simp only [List.map_cons, if_neg hp]
      have : trackerGet ((p :: rest.map fun p => if p.1 = id then (id, v) else p)) id =
          trackerGet (rest.map fun p => if p.1 = id then (id, v) else p) id := by
        simp [trackerGet, List.find?, hp]
      rw [this]
      exact ih (h.resolve_left hp)

theorem trackerUpdate_length_of_mem {V : Type} (reg : List (String × V)) (id : String) (v : V)
    (h : reg.any (fun p => p.1 = id) = true) :
    (trackerUpdate reg id v).length = reg.length := by
  simp [trackerUpdate, h]

/-- C4: for any two tracker updates carrying the same id but different
values, after both updates `Get(id)` returns the second update's value
(last-write-wins) and the registry's key count is unchanged by the
second update (the same id is never inserted twice). -/
theorem tracker_last_write_wins {V : Type} (reg : List (String × V))
    (id : String) (v₁ v₂ : V) (h : v₁ ≠ v₂) :
    trackerGet (trackerUpdate (trackerUpdate reg id v₁) id v₂) id = some v₂ ∧
    (trackerUpdate (trackerUpdate reg id v₁) id v₂).length =
      (trackerUpdate reg id v₁).length := by
  have hmem := trackerUpdate_mem reg id v₁
  have hout : trackerUpdate (trackerUpdate reg id v₁) id v₂ =
      (trackerUpdate reg id v₁).map (fun p => if p.1 = id then (id, v₂) else p) := by
    unfold trackerUpdate
    rw [if_pos]
    exact trackerUpdate_mem reg id v₁
  constructor
  · rw [hout]
    exact trackerGet_map_replace _ id v₂ hmem
  · exact trackerUpdate_length_of_mem _ id v₂ hmem

/-- Witness for C4 at a concrete registry. -/
theorem tracker_last_write_wins_witness :
    trackerGet (trackerUpdate (trackerUpdate [("disk_root", 42)] "battery" 80)
      "battery" 79) "battery" = some 79 ∧
    (trackerUpdate (trackerUpdate [("disk_root", 42)] "battery" 80)
      "battery" 79).length =
      (trackerUpdate [("disk_root", 42)] "battery" 80).length :=
  tracker_last_write_wins [("disk_root", 42)] "battery" 80 79 (by decide)

/-- C10: the disk-usage sensor identity is a deterministic function of
the mountpoint path alone: both implementations agree, `ID()` is
`"mountpoint_root"` for path `"/"` and otherwise `"mountpoint"` with
every `"/"` of the path replaced by `"_"`; equal mountpoints always get
equal ids. -/
theorem diskSensorID_deterministic (p q : String) (hne : p ≠ "/") :
    diskSensorID p = diskUsageStateID p ∧
    diskSensorID "/" = "mountpoint_root" ∧
    diskSensorID p = "mountpoint" ++ replaceSlashes p ∧
    (p = q → diskSensorID p = diskSensorID q) := by
  refine ⟨rfl, rfl, ?_, fun h => by rw [h]⟩
  simp [diskSensorID, hne]

/-- Witness for C10 at the mountpoint `"/home"`. -/
theorem diskSensorID_deterministic_witness :
    diskSensorID "/home" = diskUsageStateID "/home" ∧
    diskSensorID "/" = "mountpoint_root" ∧
    diskSensorID "/home" = "mountpoint" ++ replaceSlashes "/home" ∧
    ("/home" = "/home" → diskSensorID "/home" = diskSensorID "/home") :=
  diskSensorID_deterministic "/home" "/home" (by decide)

/-- C6: every typed extraction on mismatched dynamic data returns the
zero value of the target shape, each accessor under only its own
mismatch condition (whatever shape the data actually has): the empty
map for the map accessors, the nil slice for the list accessors, `""`
for the path accessor, the caller-supplied zero for the generic variant
conversion, and nil for a nil receiver; none of them can abort the
caller (all are total functions). -/
theorem extraction_zero_on_mismatch {β : Type} (d : Option DynValue)
    (dec : DynValue → Option β) (zero : β) (v : DynValue) :
    (dynAsStrMap d = none → asStringMap (some d) = some []) ∧
    (dynAsAnyMap d = none → asVariantMap (some d) = some []) ∧
    (dynAsPathList d = none → asObjectPathList (some d) = none) ∧
    (dynAsStrList d = none → asStringList (some d) = none) ∧
    (dynAsPath d = none → asObjectPath (some d) = "") ∧
    (dec v = none → variantToValue dec zero v = zero) ∧
    asStringMap none = none ∧
    asVariantMap none = none ∧
    asObjectPathList none = none ∧
    asStringList none = none ∧
    asObjectPath none = "" ∧
    asRawInterface none = none := by
  refine ⟨?_, ?_, ?_, ?_, ?_, ?_, rfl, rfl, rfl, rfl, rfl, rfl⟩
  · intro h₁; simp [asStringMap, h₁]
  · intro h₂; simp [asVariantMap, h₂]
  · intro h₃; simp [asObjectPathList, h₃]
  · intro h₄; simp [asStringList, h₄]
  · intro h₅; simp [asObjectPath, h₅]
  · intro h₆; simp [variantToValue, h₆]

/-- Witness for C6 at per-accessor mismatches: `AsStringMap` and
`AsStringList` on a path list, `AsVariantMap` on a string map,
`AsObjectPathList` on a string list, `AsObjectPath` on a string, and
the generic conversion to a path on an int. -/
theorem extraction_zero_on_mismatch_witness :
    asStringMap (some (some (.pathList ["/a"]))) = some [] ∧
    asVariantMap (some (some (.strMap [("k", "v")]))) = some [] ∧
    asObjectPathList (some (some (.strList ["x"]))) = none ∧
    asStringList (some (some (.pathList ["/a"]))) = none ∧
    asObjectPath (some (some (.str "p"))) = "" ∧
    variantToValue (fun w => dynAsPath (some w)) "" (.int 5) = "" ∧
    asStringMap none = none ∧
    asVariantMap none = none ∧
    asObjectPathList none = none ∧
    asStringList none = none ∧
    asObjectPath none = "" ∧
    asRawInterface none = none :=
  ⟨(extraction_zero_on_mismatch (some (.pathList ["/a"]))
      (fun w => dynAsPath (some w)) "" (.int 5)).1 rfl,
   (extraction_zero_on_mismatch (some (.strMap [("k", "v")]))
      (fun w => dynAsPath (some w)) "" (.int 5)).2.1 rfl,
   (extraction_zero_on_mismatch (some (.strList ["x"]))
      (fun w => dynAsPath (some w)) "" (.int 5)).2.2.1 rfl,
   (extraction_zero_on_mismatch (some (.pathList ["/a"]))
      (fun w => dynAsPath (some w)) "" (.int 5)).2.2.2.1 rfl,
   (extraction_zero_on_mismatch (some (.str "p"))
      (fun w => dynAsPath (some w)) "" (.int 5)).2.2.2.2.1 rfl,
   (extraction_zero_on_mismatch (some (.int 5))
      (fun w => dynAsPath (some w)) "" (.int 5)).2.2.2.2.2.1 rfl,
   rfl, rfl, rfl, rfl, rfl, rfl⟩

/-! ## Claim theorems: bus request error handling, session path -/

/-- C5 (amended): with an absent (nil) bus handle, `GetProp`, `SetProp`,
`Call`, `AddWatch` and `RemoveWatch` fail with the typed
`"no bus connection"` error and `GetData` returns nil, all without any
remote operation; with a handle present whose remote side rejects the
call, `GetProp`, `SetProp`, `Call`, `AddWatch` and `RemoveWatch`
propagate the remote error to the caller after exactly one remote call
(no retry), while `GetData` swallows the remote error and returns a
result with no data (also after exactly one call). -/
theorem busRequest_error_handling (c : DConn) (e : String)
    (h : c.reply c.calls = .error e) :
    getProp none = (.error "no bus connection", none) ∧
    setProp none = (.error "no bus connection", none) ∧
    callMethod none = (.error "no bus connection", none) ∧
    getData none = (none, none) ∧
    addWatch none = (.error "no bus connection", none) ∧
    removeWatch none = (.error "no bus connection", none) ∧
    getProp (some c) = (.error e, some { c with calls := c.calls + 1 }) ∧
    setProp (some c) = (.error e, some { c with calls := c.calls + 1 }) ∧
    callMethod (some c) = (.error e, some { c with calls := c.calls + 1 }) ∧
    addWatch (some c) = (.error e, some { c with calls := c.calls + 1 }) ∧
    removeWatch (some c) = (.error e, some { c with calls := c.calls + 1 }) ∧
    getData (some c) = (some none, some { c with calls := c.calls + 1 }) := by
  refine ⟨rfl, rfl, rfl, rfl, rfl, rfl, ?_, ?_, ?_, ?_, ?_, ?_⟩
  · simp [getProp, remoteInvoke, h]
  · simp [setProp, remoteInvoke, h]
  · simp [callMethod, remoteInvoke, h]
  · simp [addWatch, remoteInvoke, h]
  · simp [removeWatch, remoteInvoke, h]
  · simp [getData, remoteInvoke, h]

/-- Witness for C5 at a connection whose remote side rejects the call. -/
theorem busRequest_error_handling_witness :
    getProp none = (.error "no bus connection", none) ∧
    setProp none = (.error "no bus connection", none) ∧
    callMethod none = (.error "no bus connection", none) ∧
    getData none = (none, none) ∧
    addWatch none = (.error "no bus connection", none) ∧
    removeWatch none = (.error "no bus connection", none) ∧
    getProp (some ⟨fun _ => .error "rejected", 0⟩) =
      (.error "rejected", some { (⟨fun _ => .error "rejected", 0⟩ : DConn) with calls := 0 + 1 }) ∧
    setProp (some ⟨fun _ => .error "rejected", 0⟩) =
      (.error "rejected", some { (⟨fun _ => .error "rejected", 0⟩ : DConn) with calls := 0 + 1 }) ∧
    callMethod (some ⟨fun _ => .error "rejected", 0⟩) =
      (.error "rejected", some { (⟨fun _ => .error "rejected", 0⟩ : DConn) with calls := 0 + 1 }) ∧
    addWatch (some ⟨fun _ => .error "rejected", 0⟩) =
      (.error "rejected", some { (⟨fun _ => .error "rejected", 0⟩ : DConn) with calls := 0 + 1 }) ∧
    removeWatch (some ⟨fun _ => .error "rejected", 0⟩) =
      (.error "rejected", some { (⟨fun _ => .error "rejected", 0⟩ : DConn) with calls := 0 + 1 }) ∧
    getData (some ⟨fun _ => .error "rejected", 0⟩) =
      (some none, some { (⟨fun _ => .error "rejected", 0⟩ : DConn) with calls := 0 + 1 }) :=
  busRequest_error_handling ⟨fun _ => .error "rejected", 0⟩ "rejected" rfl

/-- C5 counterexample: the claim as stated extends "the remote error is
propagated to the caller" to `GetData`, but `GetData` swallows the
remote error (logging it) and returns a data-less result: two different
remote rejections are indistinguishable in everything `GetData` gives
the caller. -/
theorem getData_swallows_remote_error :
    (getData (some ⟨fun _ => .error "boom", 0⟩)).1 =
      (getData (some ⟨fun _ => .error "crash", 0⟩)).1 ∧
    (getData (some ⟨fun _ => .error "boom", 0⟩)).1 = some none ∧
    "boom" ≠ "crash" :=
  ⟨rfl, rfl, by decide⟩

/-- C9 counterexample: `GetSessionPath` is not total on every shape of
the `ListSessions` reply: a reply containing an entry with fewer than
three elements makes `s[2]` index out of range (a Go panic). -/
theorem getSessionPath_not_total :
    (¬ ∀ raw : Option DynValue, ∃ p, getSessionPath "user" raw = .ok p) ∧
    getSessionPath "user" (some (.sessList [[]])) =
      .error "runtime error: index out of range" := by
  refine ⟨fun h => ?_, rfl⟩
  obtain ⟨p, hp⟩ := h (some (.sessList [[]]))
  rw [show getSessionPath "user" (some (.sessList [[]])) =
    .error "runtime error: index out of range" from rfl] at hp
  exact Except.noConfusion hp

/-- C9 (amended): `GetSessionPath` is total — returning the matching
user's session path or the empty path, never panicking — on every reply
whose entries all have at least three elements, with at least five for
any entry whose third element is the current username; entries of
unexpected element type are skipped safely, and a reply that is not a
`[][]any` yields the empty path.  (Shorter entries panic, as the
counterexample shows.) -/
theorem getSessionPath_total_amended (u : String) (raw : Option DynValue)
    (h : ∀ l, dynAsSessionList raw = some l →
      ∀ s ∈ l, 2 < s.length ∧ (s[2]? = some (.str u) → 4 < s.length)) :
    ∃ p, getSessionPath u raw = .ok p := by
  unfold getSessionPath
  cases hl : dynAsSessionList raw with
  | none => exact ⟨"", rfl⟩
  | some l =>
    have h' := h l hl
    clear h hl
    show ∃ p, findUserSession u l = .ok p
    induction l with
    | nil => exact ⟨"", rfl⟩
    | cons s rest ih =>
      have hs := h' s (List.mem_cons_self s rest)
      have hrest := fun t ht => h' t (List.mem_cons_of_mem s ht)
      obtain ⟨h2, h4⟩ := hs
      have h2v : s[2]? = some s[2] := List.getElem?_eq_getElem h2
      rw [show findUserSession u (s :: rest) =
        (match s[2]? with
         | none => .error "runtime error: index out of range"
         | some (DynValue.str thisUser) =>
           if thisUser = u then
             match s[4]? with
             | none => .error "runtime error: index out of range"
             | some (DynValue.path p) => .ok p
             | some _ => findUserSession u rest
           else findUserSession u rest
         | some _ => findUserSession u rest) from rfl, h2v]
      cases hv : s[2] with
      | str thisUser =>
        by_cases hu : thisUser = u
        · subst hu
          have h4' : 4 < s.length := h4 (by rw [h2v, hv])
          have h4v : s[4]? = some s[4] := List.getElem?_eq_getElem h4'
          simp only [if_pos rfl, h4v]
          cases s[4] <;> first
            | exact ⟨_, rfl⟩
            | exact ih hrest
        · simp only [if_neg hu]
          exact ih hrest
      | int n => exact ih hrest
      | bool b => exact ih hrest
      | strMap m => exact ih hrest
      | anyMap m => exact ih hrest
      | strList l2 => exact ih hrest
      | pathList l2 => exact ih hrest
      | path p => exact ih hrest
      | sessList l2 => exact ih hrest

/-- Witness for C9 at a well-shaped two-entry reply. -/
theorem getSessionPath_total_amended_witness :
    ∃ p, getSessionPath "u"
      (some (.sessList
        [[.int 1, .str "c1", .str "other", .str "seat0", .path "/org/s1"],
         [.int 2, .str "c2", .str "u", .str "seat0", .path "/org/s2"]])) = .ok p :=
  getSessionPath_total_amended "u" _ (by
    intro l hl s hs
    simp only [dynAsSessionList, Option.some.injEq] at hl
    subst hl
    simp only [List.mem_cons, List.not_mem_nil, or_false] at hs
    rcases hs with hs | hs <;> subst hs <;>
      exact ⟨by decide, fun _ => by decide⟩)

/-! ## Merger lemmas and invariant preservation -/

theorem sum_map_set {T M : Type} [AddCommMonoid M] (f : T → M) (l : List T) :
    ∀ (i : Nat) (a old : T), l[i]? = some old →
      ((l.set i a).map f).sum + f old = (l.map f).sum + f a := by
  induction l with
  | nil => intro i a old h; simp at h
  | cons x xs ih =>
    intro i a old h
    cases i with
    | zero =>
      simp only [List.getElem?_cons_zero, Option.some.injEq] at h
      subst h
      simp only [List.set_cons_zero, List.map_cons, List.sum_cons]
      abel
    | succ n =>
      simp only [List.getElem?_cons_succ] at h
      have hrec := ih n a old h
      simp only [List.set_cons_succ, List.map_cons, List.sum_cons]
      rw [add_assoc, add_assoc, hrec]

theorem map_fst_set {α : Type} (l : List (List α × Phase)) :
    ∀ (i : Nat) (src : List α) (ph ph' : Phase), l[i]? = some (src, ph) →
      (l.set i (src, ph')).map Prod.fst = l.map Prod.fst := by
  induction l with
  | nil => intro i src ph ph' h; simp at h
  | cons x xs ih =>
    intro i src ph ph' h
    cases i with
    | zero =>
      simp only [List.getElem?_cons_zero, Option.some.injEq] at h
      subst h
      simp [List.set_cons_zero]
    | succ n =>
      simp only [List.getElem?_cons_succ] at h
      simp [List.set_cons_succ, ih n src ph ph' h]

theorem MStep.map_fst {α : Type} {s s' : MState α} (h : MStep s s') :
    s'.tasks.map Prod.fst = s.tasks.map Prod.fst := by
  cases h with
  | recv i src k h hk => exact map_fst_set s.tasks i src _ _ h
  | srcClose i src h => exact map_fst_set s.tasks i src _ _ h
  | send i src k v h hv => exact map_fst_set s.tasks i src _ _ h
  | cancelExit i src k hc h => exact map_fst_set s.tasks i src _ _ h
  | cancel hc => rfl
  | closeSink hall hc => rfl

theorem dsum_set {α : Type} (tasks : List (List α × Phase)) (i : Nat)
    (src : List α) (ph ph' : Phase) (h : tasks[i]? = some (src, ph)) :
    dsum (tasks.set i (src, ph')) + ((src.take (phaseDelivered ph) : List α) : Multiset α) =
      dsum tasks + ((src.take (phaseDelivered ph') : List α) : Multiset α) := by
  have hms := sum_map_set (fun t => ((t.1.take (phaseDelivered t.2) : List α) : Multiset α))
    tasks i (src, ph') (src, ph) h
  simpa only [dsum] using hms

theorem dsum_set_eq {α : Type} (tasks : List (List α × Phase)) (i : Nat)
    (src : List α) (ph ph' : Phase) (h : tasks[i]? = some (src, ph))
    (heq : phaseDelivered ph' = phaseDelivered ph) :
    dsum (tasks.set i (src, ph')) = dsum tasks := by
  have hms := dsum_set tasks i src ph ph' h
  rw [heq] at hms
  exact add_right_cancel hms

theorem MInv.step {α : Type} {s s' : MState α} (inv : MInv s) (h : MStep s s') :
    MInv s' := by
  cases h with
  | recv i src k h hk =>
    have hmem : (src, Phase.run k) ∈ s.tasks := List.getElem?_mem h
    refine ⟨?_, ?_, ?_, ?_, ?_⟩
    · intro t ht
      rcases List.mem_or_eq_of_mem_set ht with ht' | ht'
      · exact inv.wf t ht'
      · subst ht'; exact hk
    · show (s.delivered : Multiset α) = dsum (s.tasks.set i (src, .send k))
      rw [inv.deliv, dsum_set_eq s.tasks i src (Phase.run k) (Phase.send k) h rfl]
    · intro t ht
      rcases List.mem_or_eq_of_mem_set ht with ht' | ht'
      · exact inv.order t ht'
      · subst ht'
        simpa [phaseDelivered] using inv.order (src, Phase.run k) hmem
    · intro hcl t ht
      have := inv.closedDone hcl (src, Phase.run k) hmem
      simp [Phase.isDone] at this
    · intro hca t ht
      rcases List.mem_or_eq_of_mem_set ht with ht' | ht'
      · exact inv.clean hca t ht'
      · subst ht'; trivial
  | srcClose i src h =>
    have hmem : (src, Phase.run src.length) ∈ s.tasks := List.getElem?_mem h
    refine ⟨?_, ?_, ?_, ?_, ?_⟩
    · intro t ht
      rcases List.mem_or_eq_of_mem_set ht with ht' | ht'
      · exact inv.wf t ht'
      · subst ht'; exact ⟨Or.inl rfl, Nat.le_refl _⟩
    · show (s.delivered : Multiset α) =
        dsum (s.tasks.set i (src, .done src.length src.length))
      rw [inv.deliv,
        dsum_set_eq s.tasks i src (Phase.run src.length)
          (Phase.done src.length src.length) h rfl]
    · intro t ht
      rcases List.mem_or_eq_of_mem_set ht with ht' | ht'
      · exact inv.order t ht'
      · subst ht'
        simpa [phaseDelivered] using inv.order (src, Phase.run src.length) hmem
    · intro hcl t ht
      have := inv.closedDone hcl (src, Phase.run src.length) hmem
      simp [Phase.isDone] at this
    · intro hca t ht
      rcases List.mem_or_eq_of_mem_set ht with ht' | ht'
      · exact inv.clean hca t ht'
      · subst ht'; exact ⟨rfl, rfl⟩
  | send i src k v h hv =>
    have hmem : (src, Phase.send k) ∈ s.tasks := List.getElem?_mem h
    have htake : src.take (k + 1) = src.take k ++ [v] := by
      rw [List.take_succ, hv]; rfl
    refine ⟨?_, ?_, ?_, ?_, ?_⟩
    · intro t ht
      rcases List.mem_or_eq_of_mem_set ht with ht' | ht'
      · exact inv.wf t ht'
      · subst ht'
        exact inv.wf (src, Phase.send k) hmem
    · show ((s.delivered ++ [v] : List α) : Multiset α) =
        dsum (s.tasks.set i (src, .run (k + 1)))
      have hms := dsum_set s.tasks i src (Phase.send k) (Phase.run (k + 1)) h
      simp only [phaseDelivered] at hms
      rw [htake] at hms
      have hsplit : ((src.take k ++ [v] : List α) : Multiset α) =
          ((src.take k : List α) : Multiset α) + (([v] : List α) : Multiset α) := rfl
      have hnew : dsum (s.tasks.set i (src, .run (k + 1))) =
          dsum s.tasks + (([v] : List α) : Multiset α) := by
        have h2 : dsum (s.tasks.set i (src, .run (k + 1))) +
            ((src.take k : List α) : Multiset α) =
            (dsum s.tasks + (([v] : List α) : Multiset α)) +
              ((src.take k : List α) : Multiset α) := by
          rw [hms, hsplit]
          abel
        exact add_right_cancel h2
      rw [hnew, ← inv.deliv]
      rfl
    · intro t ht
      rcases List.mem_or_eq_of_mem_set ht with ht' | ht'
      · exact (inv.order t ht').trans (List.sublist_append_left s.delivered [v])
      · subst ht'
        show (src.take (phaseDelivered (Phase.run (k + 1)))).Sublist (s.delivered ++ [v])
        simp only [phaseDelivered]
        rw [htake]
        exact List.Sublist.append
          (by simpa [phaseDelivered] using inv.order (src, Phase.send k) hmem)
          (List.Sublist.refl [v])
    · intro hcl t ht
      have := inv.closedDone hcl (src, Phase.send k) hmem
      simp [Phase.isDone] at this
    · intro hca t ht
      rcases List.mem_or_eq_of_mem_set ht with ht' | ht'
      · exact inv.clean hca t ht'
      · subst ht'; trivial
  | cancelExit i src k hc h =>
    have hmem : (src, Phase.send k) ∈ s.tasks := List.getElem?_mem h
    refine ⟨?_, ?_, ?_, ?_, ?_⟩
    · intro t ht
      rcases List.mem_or_eq_of_mem_set ht with ht' | ht'
      · exact inv.wf t ht'
      · subst ht'
        exact ⟨Or.inr rfl, inv.wf (src, Phase.send k) hmem⟩
    · show (s.delivered : Multiset α) = dsum (s.tasks.set i (src, .done k (k + 1)))
      rw [inv.deliv, dsum_set_eq s.tasks i src (Phase.send k) (Phase.done k (k + 1)) h rfl]
    · intro t ht
      rcases List.mem_or_eq_of_mem_set ht with ht' | ht'
      · exact inv.order t ht'
      · subst ht'
        simpa [phaseDelivered] using inv.order (src, Phase.send k) hmem
    · intro hcl t ht
      have := inv.closedDone hcl (src, Phase.send k) hmem
      simp [Phase.isDone] at this
    · intro hca t ht
      rw [show ({ s with tasks := s.tasks.set i (src, .done k (k + 1)) } : MState α).cancelled
        = s.cancelled from rfl, hc] at hca
      cases hca
  | cancel hc =>
    refine ⟨inv.wf, inv.deliv, inv.order, inv.closedDone, ?_⟩
    intro hca
    cases hca
  | closeSink hall hc =>
    exact ⟨inv.wf, inv.deliv, inv.order, fun _ => hall, inv.clean⟩

theorem MInv_init {α : Type} (srcs : List (List α)) : MInv (minit srcs) := by
  refine ⟨?_, ?_, ?_, ?_, ?_⟩
  · intro t ht
    simp only [minit, List.mem_map] at ht
    obtain ⟨l, _, rfl⟩ := ht
    exact Nat.zero_le _
  · show (([] : List α) : Multiset α) = dsum (srcs.map (fun l => (l, Phase.run 0)))
    have : dsum (srcs.map (fun l => (l, Phase.run 0))) = 0 := by
      rw [dsum]
      apply List.sum_eq_zero
      intro x hx
      simp only [List.map_map, List.mem_map] at hx
      obtain ⟨l, _, rfl⟩ := hx
      rfl
    rw [this]
    rfl
  · intro t ht
    simp only [minit, List.mem_map] at ht
    obtain ⟨l, _, rfl⟩ := ht
    exact List.nil_sublist _
  · intro h
    cases h
  · intro _ t ht
    simp only [minit, List.mem_map] at ht
    obtain ⟨l, _, rfl⟩ := ht
    trivial

theorem MInv_reaches {α : Type} {a s : MState α} (inv : MInv a) (h : Reaches a s) :
    MInv s := by
  induction h with
  | refl => exact inv
  | tail _ hbc ih => exact ih.step hbc

theorem Reaches_map_fst {α : Type} {srcs : List (List α)} {s : MState α}
    (h : Reaches (minit srcs) s) : s.tasks.map Prod.fst = srcs := by
  induction h with
  | refl =>
    show (srcs.map (fun l => (l, Phase.run 0))).map Prod.fst = srcs
    rw [List.map_map]
    exact List.map_id srcs
  | tail _ hbc ih => rw [hbc.map_fst, ih]

theorem Reaches_empty_sources {α : Type} {s : MState α}
    (h : Reaches (minit ([] : List (List α))) s) :
    s.tasks = [] ∧ s.delivered = [] := by
  induction h with
  | refl => exact ⟨rfl, rfl⟩
  | tail _ hbc ih =>
    obtain ⟨ht, hd⟩ := ih
    cases hbc with
    | recv i src k h hk => rw [ht] at h; cases h
    | srcClose i src h => rw [ht] at h; cases h
    | send i src k v h hv => rw [ht] at h; cases h
    | cancelExit i src k hc h => rw [ht] at h; cases h
    | cancel hc => exact ⟨ht, hd⟩
    | closeSink hall hc => exact ⟨ht, hd⟩

/-- C1 (amended): when the merger's sink is observed closed, every
forwarding task has finished (join barrier before `close(out)`), the
values from each single source were delivered in source order (each
source's delivered prefix is a sublist of the sink sequence), and the
sink multiset is exactly the union of the per-source delivered
prefixes — the whole union of the sources whenever the context was
never cancelled; with zero sources the sink can close immediately and
nothing is ever delivered.  (As literally stated — sink multiset equal
to everything sent on the sources before cancellation — the claim
fails, because a task interrupted in its pending send drops the
in-flight value; see the counterexample theorem.) -/
theorem mergeSensorCh_fanin {α : Type} (srcs : List (List α)) (s : MState α)
    (h : Reaches (minit srcs) s) (hcl : s.closed = true) :
    s.tasks.map Prod.fst = srcs ∧
    (∀ t ∈ s.tasks, t.2.isDone = true) ∧
    (∀ t ∈ s.tasks, (t.1.take (phaseDelivered t.2)).Sublist s.delivered) ∧
    (s.delivered : Multiset α) = dsum s.tasks ∧
    (s.cancelled = false →
      (s.delivered : Multiset α) = (srcs.map (fun l => Multiset.ofList l)).sum) ∧
    MStep (minit ([] : List (List α))) { minit ([] : List (List α)) with closed := true } ∧
    (∀ s₀ : MState α, Reaches (minit ([] : List (List α))) s₀ → s₀.delivered = []) := by
  have inv := MInv_reaches (MInv_init srcs) h
  have hfst := Reaches_map_fst h
  refine ⟨hfst, inv.closedDone hcl, inv.order, inv.deliv, ?_, ?_, ?_⟩
  · intro hca
    rw [inv.deliv]
    have hall : ∀ t ∈ s.tasks,
        ((t.1.take (phaseDelivered t.2) : List α) : Multiset α) = ((t.1 : List α) : Multiset α) := by
      intro t ht
      have hclean := inv.clean hca t ht
      have hdone := inv.closedDone hcl t ht
      cases hph : t.2 with
      | run k => rw [hph] at hdone; cases hdone
      | send k => rw [hph] at hdone; cases hdone
      | done d c =>
        rw [hph] at hclean
        obtain ⟨hd, _⟩ := hclean
        rw [show phaseDelivered (Phase.done d c) = d from rfl, hd, List.take_length]
    have h1 : s.tasks.map (fun t => ((t.1.take (phaseDelivered t.2) : List α) : Multiset α)) =
        s.tasks.map (fun t => Multiset.ofList t.1) := List.map_congr_left hall
    have h2 : s.tasks.map (fun t => Multiset.ofList t.1) =
        (s.tasks.map Prod.fst).map (fun l => Multiset.ofList l) := by
      rw [List.map_map]
      rfl
    rw [dsum, h1, h2, hfst]
  · exact MStep.closeSink (minit ([] : List (List α)))
      (fun t ht => absurd ht (List.not_mem_nil t)) rfl
  · intro s₀ h₀
    exact (Reaches_empty_sources h₀).2

/-- Witness for C1 at the single source `[5]`, fully delivered and
closed without cancellation. -/
theorem mergeSensorCh_fanin_witness :
    (⟨[([5], Phase.done 1 1)], [5], false, true, 0⟩ : MState ℕ).tasks.map Prod.fst = [[5]] ∧
    (∀ t ∈ (⟨[([5], Phase.done 1 1)], [5], false, true, 0⟩ : MState ℕ).tasks,
      t.2.isDone = true) ∧
    (∀ t ∈ (⟨[([5], Phase.done 1 1)], [5], false, true, 0⟩ : MState ℕ).tasks,
      (t.1.take (phaseDelivered t.2)).Sublist
        (⟨[([5], Phase.done 1 1)], [5], false, true, 0⟩ : MState ℕ).delivered) ∧
    (((⟨[([5], Phase.done 1 1)], [5], false, true, 0⟩ : MState ℕ).delivered : Multiset ℕ) =
      dsum (⟨[([5], Phase.done 1 1)], [5], false, true, 0⟩ : MState ℕ).tasks) ∧
    ((⟨[([5], Phase.done 1 1)], [5], false, true, 0⟩ : MState ℕ).cancelled = false →
      (((⟨[([5], Phase.done 1 1)], [5], false, true, 0⟩ : MState ℕ).delivered : Multiset ℕ) =
        (([[5]] : List (List ℕ)).map (fun l => Multiset.ofList l)).sum)) ∧
    MStep (minit ([] : List (List ℕ))) { minit ([] : List (List ℕ)) with closed := true } ∧
    (∀ s₀ : MState ℕ, Reaches (minit ([] : List (List ℕ))) s₀ → s₀.delivered = []) := by
  have t1 : MStep (minit [[5]]) (⟨[([5], Phase.send 0)], [], false, false, 0⟩ : MState ℕ) :=
    MStep.recv (minit [[5]]) 0 [5] 0 rfl (by decide)
  have t2 : MStep (⟨[([5], Phase.send 0)], [], false, false, 0⟩ : MState ℕ)
      (⟨[([5], Phase.run 1)], [5], false, false, 0⟩ : MState ℕ) :=
    MStep.send _ 0 [5] 0 5 rfl rfl
  have t3 : MStep (⟨[([5], Phase.run 1)], [5], false, false, 0⟩ : MState ℕ)
      (⟨[([5], Phase.done 1 1)], [5], false, false, 0⟩ : MState ℕ) :=
    MStep.srcClose _ 0 [5] rfl
  have t4 : MStep (⟨[([5], Phase.done 1 1)], [5], false, false, 0⟩ : MState ℕ)
      (⟨[([5], Phase.done 1 1)], [5], false, true, 0⟩ : MState ℕ) :=
    MStep.closeSink _ (by decide) rfl
  exact mergeSensorCh_fanin [[5]] _
    (Relation.ReflTransGen.head t1 (Relation.ReflTransGen.head t2
      (Relation.ReflTransGen.head t3 (Relation.ReflTransGen.head t4
        Relation.ReflTransGen.refl)))) rfl

/-- C1 counterexample: the claim as stated — the sink delivers exactly
the multiset of values sent on the sources before cancellation — is
false: with the single source `[1]`, the forwarding task consumes `1`
(the producer's send completes), the context is cancelled, the task
abandons its pending sink send and exits, and the sink closes having
delivered nothing although `1` was sent before cancellation. -/
theorem mergeSensorCh_drops_inflight_value :
    ¬ ∀ (srcs : List (List ℕ)) (s : MState ℕ),
        Reaches (minit srcs) s → s.closed = true →
        (s.delivered : Multiset ℕ) =
          (if s.cancelled = true then s.atCancel else sentM s) := by
  intro hclaim
  have t1 : MStep (minit [[1]]) (⟨[([1], Phase.send 0)], [], false, false, 0⟩ : MState ℕ) :=
    MStep.recv (minit [[1]]) 0 [1] 0 rfl (by decide)
  have t2 : MStep (⟨[([1], Phase.send 0)], [], false, false, 0⟩ : MState ℕ)
      (⟨[([1], Phase.send 0)], [], true, false,
        sentM (⟨[([1], Phase.send 0)], [], false, false, 0⟩ : MState ℕ)⟩ : MState ℕ) :=
    MStep.cancel _ rfl
  have t3 : MStep (⟨[([1], Phase.send 0)], [], true, false,
        sentM (⟨[([1], Phase.send 0)], [], false, false, 0⟩ : MState ℕ)⟩ : MState ℕ)
      (⟨[([1], Phase.done 0 1)], [], true, false,
        sentM (⟨[([1], Phase.send 0)], [], false, false, 0⟩ : MState ℕ)⟩ : MState ℕ) :=
    MStep.cancelExit _ 0 [1] 0 rfl rfl
  have t4 : MStep (⟨[([1], Phase.done 0 1)], [], true, false,
        sentM (⟨[([1], Phase.send 0)], [], false, false, 0⟩ : MState ℕ)⟩ : MState ℕ)
      (⟨[([1], Phase.done 0 1)], [], true, true,
        sentM (⟨[([1], Phase.send 0)], [], false, false, 0⟩ : MState ℕ)⟩ : MState ℕ) :=
    MStep.closeSink _ (by decide) rfl
  have hfinal := hclaim [[1]] _
    (Relation.ReflTransGen.head t1 (Relation.ReflTransGen.head t2
      (Relation.ReflTransGen.head t3 (Relation.ReflTransGen.head t4
        Relation.ReflTransGen.refl)))) rfl
  rw [if_pos rfl] at hfinal
  exact absurd hfinal (by decide)

theorem exists_not_done {α : Type} (tasks : List (List α × Phase))
    (h : ¬ ∀ t ∈ tasks, t.2.isDone = true) :
    ∃ (i : Nat) (src : List α) (ph : Phase),
      tasks[i]? = some (src, ph) ∧ ph.isDone = false := by
  induction tasks with
  | nil => exact absurd (fun t ht => absurd ht (List.not_mem_nil t)) h
  | cons x xs ih =>
    by_cases hx : x.2.isDone = true
    · have h' : ¬ ∀ t ∈ xs, t.2.isDone = true := by
        intro hall
        exact h (fun t ht => by
          rcases List.mem_cons.mp ht with h1 | h1
          · rw [h1]; exact hx
          · exact hall t h1)
      obtain ⟨i, src, ph, hi, hph⟩ := ih h'
      exact ⟨i + 1, src, ph, by rw [List.getElem?_cons_succ]; exact hi, hph⟩
    · exact ⟨0, x.1, x.2, by simp, Bool.eq_false_iff.mpr hx⟩

theorem weightSum_set {α : Type} (tasks : List (List α × Phase)) (i : Nat)
    (src : List α) (ph ph' : Phase) (h : tasks[i]? = some (src, ph)) :
    weightSum (tasks.set i (src, ph')) + phaseWeight ph =
      weightSum tasks + phaseWeight ph' := by
  have := sum_map_set (fun t => phaseWeight t.2) tasks i (src, ph') (src, ph) h
  simpa [weightSum] using this

theorem merge_quiescence_aux {α : Type} :
    ∀ (n : Nat) (s : MState α), weightSum s.tasks ≤ n → MInv s → s.cancelled = true →
      ∃ s', Reaches s s' ∧ s'.closed = true ∧ s'.delivered = s.delivered ∧
        ∀ t ∈ s'.tasks, t.2.isDone = true := by
  intro n
  induction n with
  | zero =>
    intro s hw inv hc
    by_cases hall : ∀ t ∈ s.tasks, t.2.isDone = true
    · by_cases hcl : s.closed = true
      · exact ⟨s, Relation.ReflTransGen.refl, hcl, rfl, hall⟩
      · refine ⟨{ s with closed := true },
          Relation.ReflTransGen.single (MStep.closeSink s hall (by
            cases h : s.closed
            · rfl
            · exact absurd h hcl)), rfl, rfl, hall⟩
    · obtain ⟨i, src, ph, hi, hph⟩ := exists_not_done s.tasks hall
      have hmem : (src, ph) ∈ s.tasks := List.getElem?_mem hi
      have hmem2 : phaseWeight ph ∈ s.tasks.map (fun t => phaseWeight t.2) := by
        exact List.mem_map_of_mem _ hmem
      have hle : phaseWeight ph ≤ weightSum s.tasks :=
        List.single_le_sum (fun x _ => Nat.zero_le x) _ hmem2
      have hpos : 1 ≤ phaseWeight ph := by
        cases ph with
        | run k => exact Nat.le_of_lt Nat.one_lt_two
        | send k => exact Nat.le_refl 1
        | done d c => simp [Phase.isDone] at hph
      omega
  | succ n ih =>
    intro s hw inv hc
    by_cases hall : ∀ t ∈ s.tasks, t.2.isDone = true
    · by_cases hcl : s.closed = true
      · exact ⟨s, Relation.ReflTransGen.refl, hcl, rfl, hall⟩
      · refine ⟨{ s with closed := true },
          Relation.ReflTransGen.single (MStep.closeSink s hall (by
            cases h : s.closed
            · rfl
            · exact absurd h hcl)), rfl, rfl, hall⟩
    · obtain ⟨i, src, ph, hi, hph⟩ := exists_not_done s.tasks hall
      cases ph with
      | run k =>
        rcases Nat.lt_or_ge k src.length with hk | hk
        · have hstep := MStep.recv s i src k hi hk
          have hws := weightSum_set s.tasks i src (Phase.run k) (Phase.send k) hi
          have hw1 : weightSum (s.tasks.set i (src, Phase.send k)) ≤ n := by
            simp only [phaseWeight] at hws
            omega
          obtain ⟨s', hr, hcl', hd, hdone⟩ := ih _ hw1 (inv.step hstep) hc
          exact ⟨s', Relation.ReflTransGen.head hstep hr, hcl', hd, hdone⟩
        · have hkeq : k = src.length :=
            Nat.le_antisymm (inv.wf (src, Phase.run k) (List.getElem?_mem hi)) hk
          subst hkeq
          have hstep := MStep.srcClose s i src hi
          have hws := weightSum_set s.tasks i src (Phase.run src.length)
            (Phase.done src.length src.length) hi
          have hw1 : weightSum (s.tasks.set i (src, Phase.done src.length src.length)) ≤ n := by
            simp only [phaseWeight] at hws
            omega
          obtain ⟨s', hr, hcl', hd, hdone⟩ := ih _ hw1 (inv.step hstep) hc
          exact ⟨s', Relation.ReflTransGen.head hstep hr, hcl', hd, hdone⟩
      | send k =>
        have hstep := MStep.cancelExit s i src k hc hi
        have hws := weightSum_set s.tasks i src (Phase.send k) (Phase.done k (k + 1)) hi
        have hw1 : weightSum (s.tasks.set i (src, Phase.done k (k + 1))) ≤ n := by
          simp only [phaseWeight] at hws
          omega
        obtain ⟨s', hr, hcl', hd, hdone⟩ := ih _ hw1 (inv.step hstep) hc
        exact ⟨s', Relation.ReflTransGen.head hstep hr, hcl', hd, hdone⟩
      | done d c => simp [Phase.isDone] at hph

/-- C7: a forwarding task copies its source's values to the sink in
source order until the source closes or the context is cancelled, and a
pending send never blocks a cancelled task forever: the abandon step is
enabled for any task inside the `select` once the context is cancelled,
and from any cancelled invariant state the whole merger reaches
quiescence — every forwarding task exited and the sink closed — with no
further sink delivery at all (no cooperation from the sink's consumer
needed). -/
theorem mergeSensorCh_cancel_no_block {α : Type} (s : MState α)
    (inv : MInv s) (hc : s.cancelled = true) :
    (∀ i src k, s.tasks[i]? = some (src, Phase.send k) →
      MStep s { s with tasks := s.tasks.set i (src, Phase.done k (k + 1)) }) ∧
    (∀ t ∈ s.tasks, (t.1.take (phaseDelivered t.2)).Sublist s.delivered) ∧
    ∃ s', Reaches s s' ∧ s'.closed = true ∧ s'.delivered = s.delivered ∧
      ∀ t ∈ s'.tasks, t.2.isDone = true := by
  refine ⟨fun i src k hi => MStep.cancelExit s i src k hc hi, inv.order, ?_⟩
  exact merge_quiescence_aux (weightSum s.tasks) s (Nat.le_refl _) inv hc

/-- Witness for C7 at a cancelled state holding one in-flight value. -/
theorem mergeSensorCh_cancel_no_block_witness :
    (∀ i src k,
      (⟨[([1], Phase.send 0)], [], true, false, 0⟩ : MState ℕ).tasks[i]? =
        some (src, Phase.send k) →
      MStep (⟨[([1], Phase.send 0)], [], true, false, 0⟩ : MState ℕ)
        { (⟨[([1], Phase.send 0)], [], true, false, 0⟩ : MState ℕ) with
          tasks := (⟨[([1], Phase.send 0)], [], true, false, 0⟩ : MState ℕ).tasks.set i
            (src, Phase.done k (k + 1)) }) ∧
    (∀ t ∈ (⟨[([1], Phase.send 0)], [], true, false, 0⟩ : MState ℕ).tasks,
      (t.1.take (phaseDelivered t.2)).Sublist
        (⟨[([1], Phase.send 0)], [], true, false, 0⟩ : MState ℕ).delivered) ∧
    ∃ s', Reaches (⟨[([1], Phase.send 0)], [], true, false, 0⟩ : MState ℕ) s' ∧
      s'.closed = true ∧
      s'.delivered = (⟨[([1], Phase.send 0)], [], true, false, 0⟩ : MState ℕ).delivered ∧
      ∀ t ∈ s'.tasks, t.2.isDone = true := by
  refine mergeSensorCh_cancel_no_block _ ⟨?_, ?_, ?_, ?_, ?_⟩ rfl
  · intro t ht
    rw [List.mem_singleton] at ht
    rw [ht]
    exact Nat.zero_lt_one
  · decide
  · intro t ht
    rw [List.mem_singleton] at ht
    rw [ht]
    exact List.nil_sublist _
  · intro h
    cases h
  · intro h
    cases h

/-! ## Dispatch-loop and bus-lifecycle theorems -/

theorem dispatch_inv {p₀ : List Nat} {s : DState} (h : DReaches (dinit p₀) s) :
    s.matchRegistered = true ∧
    (s.chanClosed = true ↔ s.pc = .exited) ∧
    (s.pc = .exited → s.closeCount = 1 ∧ s.removedFromConn = true ∧ s.ctxDone = true) ∧
    (s.pc ≠ .exited → s.closeCount = 0 ∧ s.removedFromConn = false ∧
      s.chanClosed = false) := by
  induction h with
  | refl =>
    refine ⟨rfl, ⟨fun hh => Bool.noConfusion hh, fun hh => DPhase.noConfusion hh⟩,
      fun hh => DPhase.noConfusion hh, fun _ => ⟨rfl, rfl, rfl⟩⟩
  | tail _ hbc ih =>
    obtain ⟨ihm, ihc, ihe, ihn⟩ := ih
    cases hbc with
    | enqueue sig h1 h2 => exact ⟨ihm, ihc, ihe, ihn⟩
    | takeSignal sig rest hpc hp =>
      have hne : DPhase.loop ≠ DPhase.exited := fun hh => DPhase.noConfusion hh
      obtain ⟨hc0, hr0, hcl0⟩ := ihn (by rw [hpc]; exact hne)
      refine ⟨ihm, ?_, ?_, ?_⟩
      · exact ⟨fun hh => absurd (hcl0 ▸ hh) (by simp),
          fun hh => DPhase.noConfusion hh⟩
      · intro hh; exact absurd hh (fun hh2 => DPhase.noConfusion hh2)
      · intro _; exact ⟨hc0, hr0, hcl0⟩
    | handlerReturn sig hpc =>
      have hne : DPhase.handling sig ≠ DPhase.exited := fun hh => DPhase.noConfusion hh
      obtain ⟨hc0, hr0, hcl0⟩ := ihn (by rw [hpc]; exact hne)
      refine ⟨ihm, ?_, ?_, ?_⟩
      · exact ⟨fun hh => absurd (hcl0 ▸ hh) (by simp),
          fun hh => DPhase.noConfusion hh⟩
      · intro hh; exact absurd hh (fun hh2 => DPhase.noConfusion hh2)
      · intro _; exact ⟨hc0, hr0, hcl0⟩
    | ctxCancel h =>
      refine ⟨ihm, ihc, ?_, ?_⟩
      · intro hh
        obtain ⟨h1, h2, _⟩ := ihe hh
        exact ⟨h1, h2, rfl⟩
      · exact ihn
    | cancelBranch hpc hd =>
      have hne : DPhase.loop ≠ DPhase.exited := fun hh => DPhase.noConfusion hh
      obtain ⟨hc0, _, _⟩ := ihn (by rw [hpc]; exact hne)
      refine ⟨ihm, ⟨fun _ => rfl, fun _ => rfl⟩, ?_, ?_⟩
      · intro _
        exact ⟨by rw [hc0], rfl, hd⟩
      · intro hh; exact absurd rfl hh

/-- C3 (amended): after a successful `AddWatch`, once the supplied
context is cancelled the dispatch goroutine can always finish — from
any reachable state an execution of its own steps reaches the exited
state — and at exit the delivery channel has been removed from the
connection and closed, exactly once and only by the exiting goroutine;
but the subscription's bus match rules are NOT deregistered (that
requires a separate `RemoveWatch` call), and the channel is closed
without being drained.  (See the counterexample for the deregistration
and drain parts of the claim as stated.) -/
theorem addWatch_teardown {p₀ : List Nat} {s : DState} (h : DReaches (dinit p₀) s)
    (hd : s.ctxDone = true) :
    s.matchRegistered = true ∧
    (s.chanClosed = true ↔ s.pc = .exited) ∧
    (s.pc = .exited → s.closeCount = 1 ∧ s.removedFromConn = true) ∧
    (s.pc ≠ .exited → s.closeCount = 0) ∧
    ∃ s', DReaches s s' ∧ s'.pc = .exited ∧ s'.chanClosed = true ∧
      s'.closeCount = 1 ∧ s'.matchRegistered = true := by
  obtain ⟨ihm, ihc, ihe, ihn⟩ := dispatch_inv h
  refine ⟨ihm, ihc, fun hh => ⟨(ihe hh).1, (ihe hh).2.1⟩, fun hh => (ihn hh).1, ?_⟩
  cases hpc : s.pc with
  | exited =>
    exact ⟨s, Relation.ReflTransGen.refl, hpc, ihc.mpr hpc, (ihe hpc).1, ihm⟩
  | loop =>
    refine ⟨_, Relation.ReflTransGen.single (DStep.cancelBranch s hpc hd),
      rfl, rfl, ?_, ihm⟩
    have := (ihn (by rw [hpc]; exact fun hh => DPhase.noConfusion hh)).1
    show s.closeCount + 1 = 1
    rw [this]
  | handling sig =>
    have t1 : DStep s { s with pc := .loop, handled := s.handled ++ [sig] } :=
      DStep.handlerReturn s sig hpc
    have t2 : DStep { s with pc := .loop, handled := s.handled ++ [sig] }
        { s with
          pc := .exited
          handled := s.handled ++ [sig]
          removedFromConn := true
          chanClosed := true
          closeCount := s.closeCount + 1 } :=
      DStep.cancelBranch _ rfl hd
    refine ⟨_, Relation.ReflTransGen.head t1 (Relation.ReflTransGen.single t2),
      rfl, rfl, ?_, ihm⟩
    have := (ihn (by rw [hpc]; exact fun hh => DPhase.noConfusion hh)).1
    show s.closeCount + 1 = 1
    rw [this]

/-- Witness for C3 at the cancelled initial state with no pending signal. -/
theorem addWatch_teardown_witness :
    (⟨.loop, [], [], true, true, false, false, 0⟩ : DState).matchRegistered = true ∧
    ((⟨.loop, [], [], true, true, false, false, 0⟩ : DState).chanClosed = true ↔
      (⟨.loop, [], [], true, true, false, false, 0⟩ : DState).pc = .exited) ∧
    ((⟨.loop, [], [], true, true, false, false, 0⟩ : DState).pc = .exited →
      (⟨.loop, [], [], true, true, false, false, 0⟩ : DState).closeCount = 1 ∧
      (⟨.loop, [], [], true, true, false, false, 0⟩ : DState).removedFromConn = true) ∧
    ((⟨.loop, [], [], true, true, false, false, 0⟩ : DState).pc ≠ .exited →
      (⟨.loop, [], [], true, true, false, false, 0⟩ : DState).closeCount = 0) ∧
    ∃ s', DReaches (⟨.loop, [], [], true, true, false, false, 0⟩ : DState) s' ∧
      s'.pc = .exited ∧ s'.chanClosed = true ∧ s'.closeCount = 1 ∧
      s'.matchRegistered = true :=
  addWatch_teardown
    (Relation.ReflTransGen.single (DStep.ctxCancel (dinit []) rfl)) rfl

/-- C3 counterexample: the claim as stated is false: in the reachable
exited state after cancellation the bus match rules are still
registered (the loop only calls `RemoveSignal` and `close`, never
`RemoveMatchSignal`), and a signal still queued on the delivery channel
was never drained. -/
theorem addWatch_no_deregistration :
    ¬ ∀ (p₀ : List Nat) (s : DState), DReaches (dinit p₀) s →
        s.ctxDone = true → s.pc = .exited →
        s.matchRegistered = false ∧ s.pending = [] := by
  intro hclaim
  have t1 : DStep (dinit [7]) (⟨.loop, [7], [], true, true, false, false, 0⟩ : DState) :=
    DStep.ctxCancel _ rfl
  have t2 : DStep (⟨.loop, [7], [], true, true, false, false, 0⟩ : DState)
      (⟨.exited, [7], [], true, true, true, true, 1⟩ : DState) :=
    DStep.cancelBranch _ rfl rfl
  have hres := hclaim [7] _
    (Relation.ReflTransGen.head t1 (Relation.ReflTransGen.single t2)) rfl rfl
  exact absurd hres.1 (by decide)

/-- C8: the dispatch loop delivers signals to the handler synchronously
and one at a time: a step taken while the handler is running never
changes the delivered-signal sequence (no second signal is taken up
while the previous handler invocation is still executing), and any step
that does extend the delivered sequence starts at the `select` point
and takes exactly the head pending signal. -/
theorem dispatch_handler_synchronous (s s' : DState) (sig : Nat) (hstep : DStep s s') :
    (s.pc = .handling sig → deliveredSignals s' = deliveredSignals s) ∧
    (deliveredSignals s' = deliveredSignals s ∨
      (s.pc = .loop ∧ ∃ g rest, s.pending = g :: rest ∧
        deliveredSignals s' = deliveredSignals s ++ [g])) := by
  cases hstep with
  | enqueue g h1 h2 =>
    exact ⟨fun _ => rfl, Or.inl rfl⟩
  | takeSignal g rest hpc hp =>
    constructor
    · intro hh
      rw [hpc] at hh
      exact DPhase.noConfusion hh
    · refine Or.inr ⟨hpc, g, rest, hp, ?_⟩
      simp [deliveredSignals, hpc]
  | handlerReturn g hpc =>
    constructor
    · intro _
      simp [deliveredSignals, hpc]
    · left
      simp [deliveredSignals, hpc]
  | ctxCancel h =>
    exact ⟨fun _ => rfl, Or.inl rfl⟩
  | cancelBranch hpc hd =>
    constructor
    · intro hh
      rw [hpc] at hh
      exact DPhase.noConfusion hh
    · left
      simp [deliveredSignals, hpc]

/-- Witness for C8 at a handler-return step from a handling state. -/
theorem dispatch_handler_synchronous_witness :
    ((⟨.handling 3, [], [], false, true, false, false, 0⟩ : DState).pc = .handling 3 →
      deliveredSignals (⟨.loop, [], [3], false, true, false, false, 0⟩ : DState) =
        deliveredSignals (⟨.handling 3, [], [], false, true, false, false, 0⟩ : DState)) ∧
    (deliveredSignals (⟨.loop, [], [3], false, true, false, false, 0⟩ : DState) =
        deliveredSignals (⟨.handling 3, [], [], false, true, false, false, 0⟩ : DState) ∨
      ((⟨.handling 3, [], [], false, true, false, false, 0⟩ : DState).pc = .loop ∧
        ∃ g rest,
          (⟨.handling 3, [], [], false, true, false, false, 0⟩ : DState).pending = g :: rest ∧
          deliveredSignals (⟨.loop, [], [3], false, true, false, false, 0⟩ : DState) =
            deliveredSignals (⟨.handling 3, [], [], false, true, false, false, 0⟩ : DState)
              ++ [g])) :=
  dispatch_handler_synchronous _ _ 3 (DStep.handlerReturn _ 3 rfl)

theorem bus_inv {s : BState} (h : BReaches binit s) :
    (s.connClosed = true ↔ s.w = .w3) ∧ (s.w ≠ .w0 → s.cancelled = true) := by
  induction h with
  | refl =>
    exact ⟨⟨fun hh => absurd hh (by decide), fun hh => WPhase.noConfusion hh⟩,
      fun hh => absurd rfl hh⟩
  | tail _ hbc ih =>
    obtain ⟨ihc, ihk⟩ := ih
    cases hbc with
    | cancelB h => exact ⟨ihc, fun _ => rfl⟩
    | passDone hw hc =>
      refine ⟨⟨fun hh => absurd (ihc.mp hh) ?_, fun hh => WPhase.noConfusion hh⟩,
        fun _ => hc⟩
      rw [hw]
      exact fun hh => WPhase.noConfusion hh
    | waitReturn hw ha =>
      refine ⟨⟨fun hh => absurd (ihc.mp hh) ?_, fun hh => WPhase.noConfusion hh⟩,
        fun _ => ihk (by rw [hw]; exact fun hh => WPhase.noConfusion hh)⟩
      rw [hw]
      exact fun hh => WPhase.noConfusion hh
    | doClose hw =>
      exact ⟨⟨fun _ => rfl, fun _ => rfl⟩,
        fun _ => ihk (by rw [hw]; exact fun hh => WPhase.noConfusion hh)⟩
    | addWatchB h => exact ⟨ihc, ihk⟩
    | watchExit k h => exact ⟨ihc, ihk⟩

theorem bus_barrier_aux {s : BState} (h : BReaches binit s)
    (hw : s.w = .w2 ∨ s.w = .w3) :
    ∃ m, BReaches binit m ∧ BReaches m s ∧ m.active = 0 ∧ m.cancelled = true ∧
      m.connClosed = false := by
  induction h with
  | refl =>
    rcases hw with hh | hh <;> exact WPhase.noConfusion hh
  | tail hab hbc ih =>
    cases hbc with
    | cancelB h =>
      obtain ⟨m, h1, h2, h3, h4, h5⟩ := ih hw
      exact ⟨m, h1, Relation.ReflTransGen.tail h2 (BStep.cancelB _ h), h3, h4, h5⟩
    | passDone hw2 hc =>
      rcases hw with hh | hh <;> exact WPhase.noConfusion hh
    | waitReturn hw2 ha =>
      rename_i b
      have hcan : b.cancelled = true :=
        (bus_inv hab).2 (by rw [hw2]; exact fun hh => WPhase.noConfusion hh)
      have hop : b.connClosed = false := by
        cases hcl : b.connClosed
        · rfl
        · exact absurd ((bus_inv hab).1.mp hcl) (by
            rw [hw2]; exact fun hh => WPhase.noConfusion hh)
      exact ⟨b, hab, Relation.ReflTransGen.single (BStep.waitReturn b hw2 ha),
        ha, hcan, hop⟩
    | doClose hw2 =>
      obtain ⟨m, h1, h2, h3, h4, h5⟩ := ih (Or.inl hw2)
      exact ⟨m, h1, Relation.ReflTransGen.tail h2 (BStep.doClose _ hw2), h3, h4, h5⟩
    | addWatchB h =>
      obtain ⟨m, h1, h2, h3, h4, h5⟩ := ih hw
      exact ⟨m, h1, Relation.ReflTransGen.tail h2 (BStep.addWatchB _ h), h3, h4, h5⟩
    | watchExit k h =>
      obtain ⟨m, h1, h2, h3, h4, h5⟩ := ih hw
      exact ⟨m, h1, Relation.ReflTransGen.tail h2 (BStep.watchExit _ k h), h3, h4, h5⟩

/-- C2 (amended): the bus connection is closed only after the caller's
context has been cancelled, and only after the lifecycle watcher's
`wg.Wait()` barrier observed zero registered dispatch goroutines while
the connection was still open — so every dispatch goroutine registered
before the barrier passed had exited.  (As stated — every goroutine
registered against the handle has exited whenever the connection is
closed — the claim fails for a watch registered in the window between
the barrier and the deferred `conn.Close()`; see the counterexample.) -/
theorem newBus_close_barrier {s : BState} (h : BReaches binit s)
    (hcl : s.connClosed = true) :
    s.cancelled = true ∧
    ∃ m, BReaches binit m ∧ BReaches m s ∧ m.active = 0 ∧ m.cancelled = true ∧
      m.connClosed = false := by
  have hinv := bus_inv h
  have hw3 : s.w = .w3 := hinv.1.mp hcl
  refine ⟨hinv.2 (by rw [hw3]; exact fun hh => WPhase.noConfusion hh), ?_⟩
  exact bus_barrier_aux h (Or.inr hw3)

/-- Witness for C2 on the clean shutdown trace: cancel, pass the done
channel, pass the wait barrier, close. -/
theorem newBus_close_barrier_witness :
    (⟨.w3, true, 0, true⟩ : BState).cancelled = true ∧
    ∃ m, BReaches binit m ∧ BReaches m (⟨.w3, true, 0, true⟩ : BState) ∧
      m.active = 0 ∧ m.cancelled = true ∧ m.connClosed = false := by
  have t1 : BStep binit (⟨.w0, true, 0, false⟩ : BState) := BStep.cancelB _ rfl
  have t2 : BStep (⟨.w0, true, 0, false⟩ : BState) (⟨.w1, true, 0, false⟩ : BState) :=
    BStep.passDone _ rfl rfl
  have t3 : BStep (⟨.w1, true, 0, false⟩ : BState) (⟨.w2, true, 0, false⟩ : BState) :=
    BStep.waitReturn _ rfl rfl
  have t4 : BStep (⟨.w2, true, 0, false⟩ : BState) (⟨.w3, true, 0, true⟩ : BState) :=
    BStep.doClose _ rfl
  exact newBus_close_barrier
    (Relation.ReflTransGen.head t1 (Relation.ReflTransGen.head t2
      (Relation.ReflTransGen.head t3 (Relation.ReflTransGen.single t4)))) rfl

/-- C2 counterexample: the claim as stated is false: `AddWatch` can
register a dispatch goroutine (`wg.Add(1)` after a successful
`AddMatchSignalContext`) in the window after `wg.Wait()` has returned
and before the deferred `conn.Close()` runs, so the connection is
closed while a registered dispatch goroutine is still active. -/
theorem newBus_close_races_addWatch :
    ¬ ∀ s : BState, BReaches binit s → s.connClosed = true → s.active = 0 := by
  intro hclaim
  have t1 : BStep binit (⟨.w0, true, 0, false⟩ : BState) := BStep.cancelB _ rfl
  have t2 : BStep (⟨.w0, true, 0, false⟩ : BState) (⟨.w1, true, 0, false⟩ : BState) :=
    BStep.passDone _ rfl rfl
  have t3 : BStep (⟨.w1, true, 0, false⟩ : BState) (⟨.w2, true, 0, false⟩ : BState) :=
    BStep.waitReturn _ rfl rfl
  have t4 : BStep (⟨.w2, true, 0, false⟩ : BState) (⟨.w2, true, 1, false⟩ : BState) :=
    BStep.addWatchB _ rfl
  have t5 : BStep (⟨.w2, true, 1, false⟩ : BState) (⟨.w3, true, 1, true⟩ : BState) :=
    BStep.doClose _ rfl
  have hres := hclaim _
    (Relation.ReflTransGen.head t1 (Relation.ReflTransGen.head t2
      (Relation.ReflTransGen.head t3 (Relation.ReflTransGen.head t4
        (Relation.ReflTransGen.single t5))))) rfl
  exact absurd hres (by decide)

end HassAgent
